import Mathlib

/-!
Verification of the canvas CLI core logic (`src/cli/canvas-cli.ts`):
the A2UI JSONL stream validator and the node resolver.  The TypeScript
functions are shallowly embedded as executable Lean definitions; strings
are Lean `String`s, JavaScript `undefined` is `Option.none`.
-/

/-- Whitespace characters removed by JavaScript `String.prototype.trim`
(the common ASCII ones plus the usual Unicode space/line separators). -/
def jsWhitespace (c : Char) : Bool :=
  c == ' ' || c == '\t' || c == '\n' || c == '\r' || c == '\x0b' || c == '\x0c' ||
  c == '\u00A0' || c == '\u2028' || c == '\u2029' || c == '\uFEFF'

/-- JavaScript `line.trim()`: drop leading and trailing whitespace. -/
def jsTrim (s : String) : String :=
  String.mk (((s.data.dropWhile jsWhitespace).reverse.dropWhile jsWhitespace).reverse)

/-- Helper for `jsonl.split(/\r?\n/)`: a separator is `\n`, optionally
preceded by `\r` (a lone `\r` is not a separator). -/
def splitLinesAux : List Char → List Char → List String
  | acc, [] => [String.mk acc.reverse]
  | acc, '\r' :: '\n' :: rest => String.mk acc.reverse :: splitLinesAux [] rest
  | acc, '\n' :: rest => String.mk acc.reverse :: splitLinesAux [] rest
  | acc, c :: rest => splitLinesAux (c :: acc) rest

/-- `jsonl.split(/\r?\n/)` from `validateA2UIJsonl`. -/
def splitLines (s : String) : List String :=
  splitLinesAux [] s.data

/-- JSON values as produced by `JSON.parse`.  Number tokens are kept as raw
text: the validator never inspects numeric values. -/
inductive JsValue where
  | jnull
  | jbool (b : Bool)
  | jnum (tok : List Char)
  | jstr (chars : List Char)
  | jarr (elems : List JsValue)
  | jobj (fields : List (List Char × JsValue))

/-- JSON insignificant whitespace (RFC 8259: space, tab, LF, CR). -/
def isJsonWs (c : Char) : Bool :=
  c == ' ' || c == '\t' || c == '\n' || c == '\r'

def hexVal (c : Char) : Option Nat :=
  if '0' ≤ c ∧ c ≤ '9' then some (c.toNat - '0'.toNat)
  else if 'a' ≤ c ∧ c ≤ 'f' then some (c.toNat - 'a'.toNat + 10)
  else if 'A' ≤ c ∧ c ≤ 'F' then some (c.toNat - 'A'.toNat + 10)
  else none

def escChar (c : Char) : Option Char :=
  if c = '\"' then some '\"'
  else if c = '\\' then some '\\'
  else if c = '/' then some '/'
  else if c = 'b' then some '\x08'
  else if c = 'f' then some '\x0c'
  else if c = 'n' then some '\n'
  else if c = 'r' then some '\r'
  else if c = 't' then some '\t'
  else none

/-- Parse the body of a JSON string literal (after the opening quote),
returning the decoded characters and the remaining input. -/
def parseStringRest : List Char → Option (List Char × List Char)
  | [] => none
  | '\"' :: rest => some ([], rest)
  | '\\' :: 'u' :: a :: b :: c :: d :: rest =>
    match hexVal a, hexVal b, hexVal c, hexVal d with
    | some ha, some hb, some hc, some hd =>
      match parseStringRest rest with
      | some (s, rem) => some (Char.ofNat (((ha * 16 + hb) * 16 + hc) * 16 + hd) :: s, rem)
      | none => none
    | _, _, _, _ => none
  | '\\' :: e :: rest =>
    match escChar e with
    | some ec =>
      match parseStringRest rest with
      | some (s, rem) => some (ec :: s, rem)
      | none => none
    | none => none
  | c :: rest =>
    if c.toNat < 0x20 then none
    else
      match parseStringRest rest with
      | some (s, rem) => some (c :: s, rem)
      | none => none

def spanDigits (cs : List Char) : List Char × List Char :=
  (cs.takeWhile Char.isDigit, cs.dropWhile Char.isDigit)

/-- JSON integer part: `0` or a nonzero digit followed by digits. -/
def parseIntDigits : List Char → Option (List Char × List Char)
  | '0' :: rest => some (['0'], rest)
  | c :: rest =>
    if c.isDigit then
      match spanDigits rest with
      | (ds, r) => some (c :: ds, r)
    else none
  | [] => none

/-- Optional JSON fraction part `.[0-9]+`. -/
def parseFracDigits : List Char → Option (List Char × List Char)
  | '.' :: r =>
    match spanDigits r with
    | (ds, r2) => if ds.isEmpty then none else some ('.' :: ds, r2)
  | cs => some ([], cs)

/-- Optional JSON exponent part `[eE][+-]?[0-9]+`. -/
def parseExpDigits : List Char → Option (List Char × List Char)
  | c :: r =>
    if c = 'e' ∨ c = 'E' then
      let (sgn, r1) :=
        match r with
        | s :: r2 => if s = '+' ∨ s = '-' then ([s], r2) else (([] : List Char), s :: r2)
        | [] => (([] : List Char), ([] : List Char))
      match spanDigits r1 with
      | (ds, r3) => if ds.isEmpty then none else some (c :: (sgn ++ ds), r3)
    else some ([], c :: r)
  | [] => some ([], [])

/-- A JSON number token `-?(0|[1-9][0-9]*)(\.[0-9]+)?([eE][+-]?[0-9]+)?`. -/
def parseNumberTok (cs : List Char) : Option (List Char × List Char) :=
  let (sgn, cs0) :=
    match cs with
    | '-' :: r => ((['-'] : List Char), r)
    | _ => (([] : List Char), cs)
  match parseIntDigits cs0 with
  | none => none
  | some (it, cs1) =>
    match parseFracDigits cs1 with
    | none => none
    | some (ft, cs2) =>
      match parseExpDigits cs2 with
      | none => none
      | some (et, cs3) => some (sgn ++ it ++ ft ++ et, cs3)

/-- Work items of the fueled JSON parser: a value, the element loop of an
array, or the member loop of an object. -/
inductive PTask where
  | value
  | arrItems (acc : List JsValue)
  | objItems (acc : List (List Char × JsValue))

/-- Fueled recursive-descent JSON parser (one step of fuel per recursive
call; the driver supplies more fuel than the input length, which bounds
both nesting depth and the number of elements). -/
def parseStep : Nat → PTask → List Char → Option (JsValue × List Char)
  | 0, _, _ => none
  | Nat.succ fuel, PTask.value, cs =>
    match cs.dropWhile isJsonWs with
    | 'n' :: 'u' :: 'l' :: 'l' :: rest => some (JsValue.jnull, rest)
    | 't' :: 'r' :: 'u' :: 'e' :: rest => some (JsValue.jbool true, rest)
    | 'f' :: 'a' :: 'l' :: 's' :: 'e' :: rest => some (JsValue.jbool false, rest)
    | '\"' :: rest =>
      match parseStringRest rest with
      | some (s, rem) => some (JsValue.jstr s, rem)
      | none => none
    | '[' :: rest =>
      match rest.dropWhile isJsonWs with
      | ']' :: r => some (JsValue.jarr [], r)
      | rest2 => parseStep fuel (PTask.arrItems []) rest2
    | '{' :: rest =>
      match rest.dropWhile isJsonWs with
      | '}' :: r => some (JsValue.jobj [], r)
      | rest2 => parseStep fuel (PTask.objItems []) rest2
    | other =>
      match parseNumberTok other with
      | some (tok, rest) => some (JsValue.jnum tok, rest)
      | none => none
  | Nat.succ fuel, PTask.arrItems acc, cs =>
    match parseStep fuel PTask.value cs with
    | some (v, rem) =>
      match rem.dropWhile isJsonWs with
      | ',' :: r => parseStep fuel (PTask.arrItems (acc ++ [v])) r
      | ']' :: r => some (JsValue.jarr (acc ++ [v]), r)
      | _ => none
    | none => none
  | Nat.succ fuel, PTask.objItems acc, cs =>
    match cs.dropWhile isJsonWs with
    | '\"' :: rest =>
      match parseStringRest rest with
      | some (key, rem) =>
        match rem.dropWhile isJsonWs with
        | ':' :: r =>
          match parseStep fuel PTask.value r with
          | some (v, rem2) =>
            match rem2.dropWhile isJsonWs with
            | ',' :: r2 => parseStep fuel (PTask.objItems (acc ++ [(key, v)])) r2
            | '}' :: r2 => some (JsValue.jobj (acc ++ [(key, v)]), r2)
            | _ => none
          | none => none
        | _ => none
      | none => none
    | _ => none

/-- `JSON.parse(trimmed)`: parse one JSON value and require only
whitespace after it; `none` models a thrown `SyntaxError`. -/
def parseJson (s : String) : Option JsValue :=
  match parseStep (s.data.length + 2) PTask.value s.data with
  | some (v, rest) => if (rest.dropWhile isJsonWs).isEmpty then some v else none
  | none => none

/-- `const A2UI_ACTION_KEYS = ["beginRendering", "surfaceUpdate",
"dataModelUpdate", "deleteSurface", "createSurface"]`. -/
def A2UI_ACTION_KEYS : List String :=
  ["beginRendering", "surfaceUpdate", "dataModelUpdate", "deleteSurface", "createSurface"]

/-- `type A2UIVersion = "v0.8" | "v0.9"`. -/
inductive A2UIVersion where
  | v08
  | v09
deriving DecidableEq

/-- `key in record` for a parsed JSON object (the five action keys are not
`Object.prototype` properties, so `in` coincides with own-key presence). -/
def jsObjHasKey (fields : List (List Char × JsValue)) (k : String) : Bool :=
  fields.any (fun f => f.1 == k.data)

/-- `!obj || typeof obj !== "object" || Array.isArray(obj)` rejects, among
JSON values, exactly everything except a plain object: `null` is falsy,
arrays are arrays, and every primitive has `typeof ≠ "object"`. -/
def isPlainJsObject : JsValue → Bool
  | JsValue.jobj _ => true
  | _ => false

/-- Outcome of the per-line checks of `validateA2UIJsonl` (the body of the
`lines.forEach` callback) for one raw line. -/
inductive LineClass where
  | blank
  | parseError
  | notObject
  | badKeyCount
  | action (key : String)
deriving DecidableEq

/-- The checks of the `forEach` body of `validateA2UIJsonl` after the blank
test: `JSON.parse`, the object check, then the action-key count. -/
def classifyParsed (trimmed : String) : LineClass :=
  match parseJson trimmed with
  | none => LineClass.parseError
  | some obj =>
    if !isPlainJsObject obj then LineClass.notObject
    else
      match obj with
      | JsValue.jobj fields =>
        match A2UI_ACTION_KEYS.filter (fun k => jsObjHasKey fields k) with
        | [k] => LineClass.action k
        | _ => LineClass.badKeyCount
      | _ => LineClass.notObject

/-- Classify one line exactly as the `forEach` body of `validateA2UIJsonl`
does: trim, `JSON.parse`, the object check, then the action-key count. -/
def classifyLine (line : String) : LineClass :=
  if jsTrim line = "" then LineClass.blank else classifyParsed (jsTrim line)

/-- The single action key of a well-formed line, if any. -/
def actionKeyOf (line : String) : Option String :=
  match classifyLine line with
  | LineClass.action k => some k
  | _ => none

/-- Mutable state of `validateA2UIJsonl` while iterating over the lines. -/
structure ValidateState where
  errors : List String
  sawV08 : Bool
  sawV09 : Bool
  messageCount : Nat
deriving DecidableEq

/-- Models `String(err)` for the `SyntaxError` thrown by `JSON.parse`: the
exact wording is supplied by the host JavaScript engine and is not part of
the source, so it is modelled as a fixed placeholder rendering. -/
def jsonParseErrorText (_trimmed : String) : String :=
  "SyntaxError: invalid JSON"

/-- The `line ${idx + 1}: ${text}` tag (`idx` is the 0-based index). -/
def lineTag (idx : Nat) (text : String) : String :=
  "line " ++ toString (idx + 1) ++ ": " ++ text

/-- `expected exactly one action key (${A2UI_ACTION_KEYS.join(", ")})`. -/
def keyCountText : String :=
  "expected exactly one action key (" ++ String.intercalate ", " A2UI_ACTION_KEYS ++ ")"

/-- `no JSONL messages found`. -/
def emptyStreamText : String := "no JSONL messages found"

/-- `mixed A2UI v0.8 and v0.9 messages in one file`. -/
def mixedText : String := "mixed A2UI v0.8 and v0.9 messages in one file"

/-- One iteration of the `lines.forEach((line, idx) => ...)` loop of
`validateA2UIJsonl`, acting on the accumulated state.  Blank lines are
skipped; otherwise `messageCount` is incremented and then exactly one of
the three error pushes or one of the two version marks happens. -/
def validateStep (st : ValidateState) (p : Nat × String) : ValidateState :=
  match classifyLine p.2 with
  | LineClass.blank => st
  | LineClass.parseError =>
    { st with
      messageCount := st.messageCount + 1,
      errors := st.errors ++ [lineTag p.1 (jsonParseErrorText (jsTrim p.2))] }
  | LineClass.notObject =>
    { st with
      messageCount := st.messageCount + 1,
      errors := st.errors ++ [lineTag p.1 "expected JSON object"] }
  | LineClass.badKeyCount =>
    { st with
      messageCount := st.messageCount + 1,
      errors := st.errors ++ [lineTag p.1 keyCountText] }
  | LineClass.action k =>
    if k = "createSurface" then
      { st with messageCount := st.messageCount + 1, sawV09 := true }
    else
      { st with messageCount := st.messageCount + 1, sawV08 := true }

/-- The state after the whole `forEach` loop of `validateA2UIJsonl`. -/
def runValidate (jsonl : String) : ValidateState :=
  (splitLines jsonl).enum.foldl validateStep ⟨[], false, false, 0⟩

/-- The final error list of `validateA2UIJsonl`: the per-line errors in
discovery order, then the empty-stream check, then the mixed-versions
check. -/
def validationErrors (jsonl : String) : List String :=
  let st := runValidate jsonl
  st.errors ++ (if st.messageCount = 0 then [emptyStreamText] else []) ++
    (if st.sawV08 && st.sawV09 then [mixedText] else [])

/-- ``throw new Error(`Invalid A2UI JSONL:\n- ${errors.join("\n- ")}`)``. -/
def invalidMsg (errors : List String) : String :=
  "Invalid A2UI JSONL:\n- " ++ String.intercalate "\n- " errors

/-- `validateA2UIJsonl` from `canvas-cli.ts`: split into lines, run the
per-line checks, add the stream-level checks, and either throw the
aggregated error or return the detected version and message count. -/
def validateA2UIJsonl (jsonl : String) : Except String (A2UIVersion × Nat) :=
  let st := runValidate jsonl
  let errors := validationErrors jsonl
  if errors.isEmpty then
    Except.ok (if st.sawV09 then A2UIVersion.v09 else A2UIVersion.v08, st.messageCount)
  else
    Except.error (invalidMsg errors)

deriving instance DecidableEq for Except

example : validateA2UIJsonl "" = Except.error (invalidMsg [emptyStreamText]) := by decide
example :
    validateA2UIJsonl "\x7b\"beginRendering\":\x7b\x7d\x7d" = Except.ok (A2UIVersion.v08, 1) := by
  decide
example :
    validateA2UIJsonl "\x7b\"createSurface\":\x7b\x7d\x7d\n\x7b\"beginRendering\":\x7b\x7d\x7d" =
      Except.error (invalidMsg [mixedText]) := by decide

/-- ASCII case folding, as `String.prototype.toLowerCase` acts on the
characters relevant to `normalizeNodeKey` (every non-ASCII character is
erased by the following `[^a-z0-9]` replacement anyway). -/
def jsToLowerChar (c : Char) : Char :=
  if 'A' ≤ c ∧ c ≤ 'Z' then Char.ofNat (c.toNat + 32) else c

/-- A character kept by the `[^a-z0-9]+` replacement of `normalizeNodeKey`. -/
def isLowerAlnum (c : Char) : Bool :=
  decide (('a' ≤ c ∧ c ≤ 'z') ∨ ('0' ≤ c ∧ c ≤ '9'))

/-- `.replace(/[^a-z0-9]+/g, "-")`: each maximal run of characters outside
`[a-z0-9]` becomes a single `-`.  The flag records whether we are inside
such a run. -/
def collapseRuns : Bool → List Char → List Char
  | _, [] => []
  | inRun, c :: cs =>
    if isLowerAlnum c then c :: collapseRuns false cs
    else if inRun then collapseRuns true cs
    else '-' :: collapseRuns true cs

/-- `normalizeNodeKey` on character lists: lower-case, collapse non-alnum
runs to `-` (the `[^a-z0-9]+` global replacement), then strip leading
(`^-+`) and trailing (`-+$`) dashes. -/
def normalizeChars (l : List Char) : List Char :=
  let collapsed := collapseRuns false (l.map jsToLowerChar)
  ((collapsed.dropWhile (fun c => c = '-')).reverse.dropWhile (fun c => c = '-')).reverse

/-- `normalizeNodeKey` from `canvas-cli.ts`. -/
def normalizeNodeKey (s : String) : String :=
  String.mk (normalizeChars s.data)

/-- `type NodeListNode` from `canvas-cli.ts`; optional fields model the
optional (`?:`) TypeScript properties. -/
structure NodeListNode where
  nodeId : String
  displayName : Option String := none
  platform : Option String := none
  remoteIp : Option String := none
  caps : Option (List String) := none
  connected : Option Bool := none
deriving DecidableEq

/-- `Array.isArray(n.caps) ? n.caps.includes("canvas") : true`. -/
def capsAllowCanvas (n : NodeListNode) : Bool :=
  match n.caps with
  | some l => l.contains "canvas"
  | none => true

/-- The truthiness test `n.connected` on an optional boolean. -/
def isConnectedNode (n : NodeListNode) : Bool :=
  n.connected == some true

/-- `b.data` is a prefix of `a.data`: JavaScript `a.startsWith(b)`. -/
def startsWithChars : List Char → List Char → Bool
  | [], _ => true
  | _ :: _, [] => false
  | p :: ps, c :: cs => p == c && startsWithChars ps cs

def strStartsWith (s pre : String) : Bool :=
  startsWithChars pre.data s.data

/-- ASCII `String.prototype.toLowerCase` on a whole string. -/
def jsToLowerStr (s : String) : String :=
  String.mk (s.data.map jsToLowerChar)

/-- `n.platform?.toLowerCase().startsWith("mac") && n.nodeId.startsWith("mac-")`
(the `typeof n.nodeId === "string"` guard always holds in the model). -/
def isLocalMacNode (n : NodeListNode) : Bool :=
  (match n.platform with
   | some p => strStartsWith (jsToLowerStr p) "mac"
   | none => false) && strStartsWith n.nodeId "mac-"

/-- `pickDefaultNode` from `canvas-cli.ts`: restrict to canvas-capable
nodes, prefer connected ones, and fall back to the local-Mac tie-break;
`none` models returning `null`. -/
def pickDefaultNode (nodes : List NodeListNode) : Option NodeListNode :=
  let withCanvas := nodes.filter capsAllowCanvas
  if withCanvas.isEmpty then none
  else
    let connected := withCanvas.filter isConnectedNode
    let candidates := if connected.length > 0 then connected else withCanvas
    if candidates.length = 1 then candidates.head?
    else
      let locals := candidates.filter isLocalMacNode
      if locals.length = 1 then locals.head? else none

/-- The filter predicate in `resolveNodeId`'s `nodes.filter((n) => ...)`:
exact id, exact remote address, normalized display name, or (for queries of
at least 6 characters) an id prefix. -/
def nodeMatchesQuery (q qNorm : String) (n : NodeListNode) : Bool :=
  if n.nodeId = q then true
  else if (match n.remoteIp with | some ip => ip == q | none => false) then true
  else
    let name := match n.displayName with | some s => s | none => ""
    if name ≠ "" ∧ normalizeNodeKey name = qNorm then true
    else if 6 ≤ q.length ∧ strStartsWith n.nodeId q then true
    else false

/-- `n.displayName || n.remoteIp || n.nodeId`: the first truthy label. -/
def nodeLabel (n : NodeListNode) : String :=
  let d := match n.displayName with | some s => s | none => ""
  if d ≠ "" then d
  else
    let ip := match n.remoteIp with | some s => s | none => ""
    if ip ≠ "" then ip else n.nodeId

/-- The `known` list of the unknown-node error: labels of all nodes with
empty entries dropped (`.filter(Boolean)`), joined by `", "`. -/
def knownLabels (nodes : List NodeListNode) : String :=
  String.intercalate ", " ((nodes.map nodeLabel).filter (fun s => s ≠ ""))

/-- `node required (use --node or ensure only one connected node is available)`. -/
def nodeRequiredMsg : String :=
  "node required (use --node or ensure only one connected node is available)"

/-- ``throw new Error(`unknown node: ${q}${known ? ` (known: ${known})` : ""}`)``. -/
def unknownNodeMsg (q : String) (nodes : List NodeListNode) : String :=
  let known := knownLabels nodes
  "unknown node: " ++ q ++ (if known ≠ "" then " (known: " ++ known ++ ")" else "")

/-- ``throw new Error(`ambiguous node: ${q} (matches: ...)`)``. -/
def ambiguousNodeMsg (q : String) (ms : List NodeListNode) : String :=
  "ambiguous node: " ++ q ++ " (matches: " ++
    String.intercalate ", " (ms.map nodeLabel) ++ ")"

/-- `resolveNodeId` from `canvas-cli.ts`, as a pure function of the fetched
directory snapshot and the query (`await loadNodes` is the snapshot
argument; thrown errors become `Except.error` of the thrown message). -/
def resolveNodeId (nodes : List NodeListNode) (query : Option String) :
    Except String String :=
  let q := jsTrim (match query with | some s => s | none => "")
  if q = "" then
    match pickDefaultNode nodes with
    | some picked => Except.ok picked.nodeId
    | none => Except.error nodeRequiredMsg
  else
    let qNorm := normalizeNodeKey q
    match nodes.filter (nodeMatchesQuery q qNorm) with
    | [n] => Except.ok n.nodeId
    | [] => Except.error (unknownNodeMsg q nodes)
    | ms => Except.error (ambiguousNodeMsg q ms)

example : normalizeNodeKey "My Node!!" = "my-node" := by decide
example : normalizeNodeKey "my-node" = "my-node" := by decide
example :
    resolveNodeId
      [⟨"mac-123", some "Studio Mac", none, none, some ["canvas"], some true⟩,
       ⟨"pc-7", none, none, none, some ["canvas"], some false⟩]
      (some "studio mac") = Except.ok "mac-123" := by decide

/-- The four version-A (v0.8) action keys. -/
def versionAKeys : List String :=
  ["beginRendering", "surfaceUpdate", "dataModelUpdate", "deleteSurface"]

/-- The violation `validateA2UIJsonl` records for one line, if any
(`idx` is the 0-based index; the recorded tag is 1-based). -/
def lineViolation (idx : Nat) (line : String) : Option String :=
  match classifyLine line with
  | LineClass.blank => none
  | LineClass.action _ => none
  | LineClass.parseError => some (lineTag idx (jsonParseErrorText (jsTrim line)))
  | LineClass.notObject => some (lineTag idx "expected JSON object")
  | LineClass.badKeyCount => some (lineTag idx keyCountText)

def perLineViolationsFrom (n : Nat) (lines : List String) : List String :=
  (List.enumFrom n lines).filterMap (fun p => lineViolation p.1 p.2)

/-- All per-line violations of a payload, in line order, tagged with their
1-based line numbers. -/
def perLineViolations (jsonl : String) : List String :=
  perLineViolationsFrom 0 (splitLines jsonl)

def isBlankLine (line : String) : Bool := jsTrim line == ""

/-- The number of non-blank lines of a payload. -/
def nonBlankCount (jsonl : String) : Nat :=
  ((splitLines jsonl).filter (fun l => !isBlankLine l)).length

/-- A line that marks the stream as containing v0.9 content. -/
def isV09Line (line : String) : Bool := actionKeyOf line == some "createSurface"

/-- A line that marks the stream as containing v0.8 content. -/
def isV08Line (line : String) : Bool :=
  match actionKeyOf line with
  | some k => decide (k ≠ "createSurface")
  | none => false

/-- The stream-level violations (empty stream, then mixed versions). -/
def streamViolations (jsonl : String) : List String :=
  (if nonBlankCount jsonl = 0 then [emptyStreamText] else []) ++
    (if (splitLines jsonl).any isV08Line && (splitLines jsonl).any isV09Line then
      [mixedText] else [])

theorem classifyParsed_ne_blank (t : String) : classifyParsed t ≠ LineClass.blank := by
  unfold classifyParsed
  split <;> (try split) <;> (try split) <;> (try split) <;> intro h <;> cases h

theorem classifyLine_blank_iff (line : String) :
    classifyLine line = LineClass.blank ↔ jsTrim line = "" := by
  unfold classifyLine
  split
  · simp [*]
  · simp [*, classifyParsed_ne_blank (jsTrim line)]

theorem isBlankLine_iff (line : String) :
    isBlankLine line = true ↔ classifyLine line = LineClass.blank := by
  rw [classifyLine_blank_iff]
  simp [isBlankLine]

/-- Closed form of the `forEach` loop of `validateA2UIJsonl`, for any
starting state and starting index: the final state appends the per-line
violations in order, or-accumulates the two version flags, and adds the
number of non-blank lines to the message count. -/
theorem foldl_validateStep (lines : List String) : ∀ (n : Nat) (st : ValidateState),
    (List.enumFrom n lines).foldl validateStep st =
      ⟨st.errors ++ perLineViolationsFrom n lines,
       st.sawV08 || lines.any isV08Line,
       st.sawV09 || lines.any isV09Line,
       st.messageCount + (lines.filter (fun l => !isBlankLine l)).length⟩ := by
  induction lines with
  | nil => intro n st; simp [perLineViolationsFrom]
  | cons l ls ih =>
    intro n st
    have hstep : (List.enumFrom n (l :: ls)).foldl validateStep st
        = (List.enumFrom (n + 1) ls).foldl validateStep (validateStep st (n, l)) := rfl
    rw [hstep, ih]
    have hblank : isBlankLine l = true ↔ classifyLine l = LineClass.blank :=
      isBlankLine_iff l
    rcases hc : classifyLine l with _ | _ | _ | _ | k
    · simp_all [validateStep, hc, perLineViolationsFrom, List.enumFrom, lineViolation,
        isV08Line, isV09Line, actionKeyOf]
    · simp_all [validateStep, hc, perLineViolationsFrom, List.enumFrom, lineViolation,
        isV08Line, isV09Line, actionKeyOf]
      omega
    · simp_all [validateStep, hc, perLineViolationsFrom, List.enumFrom, lineViolation,
        isV08Line, isV09Line, actionKeyOf]
      omega
    · simp_all [validateStep, hc, perLineViolationsFrom, List.enumFrom, lineViolation,
        isV08Line, isV09Line, actionKeyOf]
      omega
    · by_cases hk : k = "createSurface"
      · simp_all [validateStep, hc, perLineViolationsFrom, List.enumFrom, lineViolation,
          isV08Line, isV09Line, actionKeyOf]
        omega
      · simp_all [validateStep, hc, perLineViolationsFrom, List.enumFrom, lineViolation,
          isV08Line, isV09Line, actionKeyOf]
        have hkb : (k == "createSurface") = false := beq_eq_false_iff_ne.mpr hk
        exact ⟨by rw [hkb]; simp, by omega⟩

/-- Closed form of the state after the whole loop. -/
theorem runValidate_eq (jsonl : String) :
    runValidate jsonl =
      ⟨perLineViolations jsonl,
       (splitLines jsonl).any isV08Line,
       (splitLines jsonl).any isV09Line,
       nonBlankCount jsonl⟩ := by
  unfold runValidate
  rw [show (splitLines jsonl).enum = List.enumFrom 0 (splitLines jsonl) from rfl,
    foldl_validateStep]
  simp [perLineViolations, nonBlankCount]

/-- The aggregated error list is the per-line violations (in line order)
followed by the stream-level violations. -/
theorem validationErrors_eq (jsonl : String) :
    validationErrors jsonl = perLineViolations jsonl ++ streamViolations jsonl := by
  unfold validationErrors streamViolations
  rw [runValidate_eq]
  simp [nonBlankCount]

theorem snd_mem_of_mem_enumFrom {α : Type} :
    ∀ (n : Nat) (l : List α) (p : Nat × α), p ∈ List.enumFrom n l → p.2 ∈ l := by
  intro n l
  induction l generalizing n with
  | nil => intro p hp; cases hp
  | cons a as ih =>
    intro p hp
    rcases List.mem_cons.mp hp with h | h
    · rw [h]; exact List.mem_cons_self _ _
    · exact List.mem_cons_of_mem _ (ih (n + 1) p h)

theorem filterMap_nil_of_all_none {α β : Type} (f : α → Option β) :
    ∀ (l : List α), (∀ a ∈ l, f a = none) → l.filterMap f = [] := by
  intro l
  induction l with
  | nil => intro _; rfl
  | cons a as ih =>
    intro h
    rw [List.filterMap_cons, h a (List.mem_cons_self _ _)]
    exact ih (fun x hx => h x (List.mem_cons_of_mem _ hx))

theorem mem_filterMapOf {α β : Type} (f : α → Option β) :
    ∀ (l : List α) (a : α) (b : β), a ∈ l → f a = some b → b ∈ l.filterMap f := by
  intro l
  induction l with
  | nil => intro a b ha; cases ha
  | cons x xs ih =>
    intro a b ha hb
    rw [List.filterMap_cons]
    rcases List.mem_cons.mp ha with h | h
    · rw [← h, hb]; exact List.mem_cons_self _ _
    · cases hfx : f x with
      | none => exact ih a b h hb
      | some y => exact List.mem_cons_of_mem _ (ih a b h hb)

theorem data_append (s t : String) : (s ++ t).data = s.data ++ t.data := rfl

/-- Every per-line violation text begins with `line `. -/
theorem lineTag_head (i : Nat) (t : String) : (lineTag i t).data.head? = some 'l' := by
  show ((("line " ++ toString (i + 1)) ++ ": ") ++ t).data.head? = some 'l'
  rw [data_append, data_append, data_append]
  have h5 : "line ".data = 'l' :: ['i', 'n', 'e', ' '] := rfl
  rw [h5]
  simp

theorem perLine_mem_head (jsonl : String) :
    ∀ e ∈ perLineViolations jsonl, e.data.head? = some 'l' := by
  intro e he
  rcases List.mem_filterMap.mp he with ⟨p, _, hp⟩
  unfold lineViolation at hp
  rcases hc : classifyLine p.2 with _ | _ | _ | _ | k <;> rw [hc] at hp
  · cases hp
  · cases hp; exact lineTag_head _ _
  · cases hp; exact lineTag_head _ _
  · cases hp; exact lineTag_head _ _
  · cases hp

theorem emptyStream_not_mem_perLine (jsonl : String) :
    emptyStreamText ∉ perLineViolations jsonl := by
  intro hmem
  have h := perLine_mem_head jsonl emptyStreamText hmem
  have h2 : emptyStreamText.data.head? = some 'n' := rfl
  rw [h2] at h
  cases h

/-- A line classified as carrying an action key is not blank. -/
theorem action_not_blank (line : String) (k : String)
    (h : classifyLine line = LineClass.action k) : jsTrim line ≠ "" := by
  intro hb
  rw [(classifyLine_blank_iff line).mpr hb] at h
  cases h

theorem nonBlankCount_pos (jsonl : String)
    (h : ∃ line ∈ splitLines jsonl, jsTrim line ≠ "") : 0 < nonBlankCount jsonl := by
  rcases h with ⟨line, hmem, hne⟩
  have hf : line ∈ (splitLines jsonl).filter (fun l => !isBlankLine l) := by
    rw [List.mem_filter]
    refine ⟨hmem, ?_⟩
    simp [isBlankLine, hne]
  exact List.length_pos_of_mem hf

/-- C1.  The validator never stops early: the errors accumulated by the
line loop are exactly the per-line violations, in line order and tagged
with 1-based line numbers (`perLineViolations`); every defective line
contributes its own entry; and when any violation exists (per-line or
stream-level) validation fails with all of them, per-line violations
first and stream-level violations last. -/
theorem claim_C1_collects_all_violations (jsonl : String) :
    (runValidate jsonl).errors = perLineViolations jsonl ∧
    (∀ p ∈ (splitLines jsonl).enum, ∀ e, lineViolation p.1 p.2 = some e →
      e ∈ perLineViolations jsonl) ∧
    (perLineViolations jsonl ++ streamViolations jsonl ≠ [] →
      validateA2UIJsonl jsonl =
        Except.error (invalidMsg (perLineViolations jsonl ++ streamViolations jsonl))) := by
  refine ⟨?_, ?_, ?_⟩
  · rw [runValidate_eq]
  · intro p hp e he
    exact mem_filterMapOf _ _ p e hp he
  · intro hne
    have hval : validationErrors jsonl = perLineViolations jsonl ++ streamViolations jsonl :=
      validationErrors_eq jsonl
    have hie : (validationErrors jsonl).isEmpty = false := by
      rw [hval]
      rcases h : perLineViolations jsonl ++ streamViolations jsonl with _ | ⟨a, t⟩
      · exact absurd h hne
      · rfl
    unfold validateA2UIJsonl
    simp [hie, hval]
    intro h1 h2
    apply hne
    rw [h1, h2]
    rfl

/-- Witness for C1 at a concrete payload with violations on lines 2 and 5
(line 2 is not JSON, line 5 is a JSON array, lines 1 and 3 are valid v0.8
messages and line 4 is blank): both violations are reported. -/
theorem claim_C1_witness :
    (perLineViolations
        "\x7b\"beginRendering\":\x7b\x7d\x7d\nBAD\n\x7b\"surfaceUpdate\":\x7b\x7d\x7d\n\n[1]" ++
      streamViolations
        "\x7b\"beginRendering\":\x7b\x7d\x7d\nBAD\n\x7b\"surfaceUpdate\":\x7b\x7d\x7d\n\n[1]" ≠ []) ∧
    validateA2UIJsonl
        "\x7b\"beginRendering\":\x7b\x7d\x7d\nBAD\n\x7b\"surfaceUpdate\":\x7b\x7d\x7d\n\n[1]" =
      Except.error (invalidMsg [lineTag 1 (jsonParseErrorText "BAD"),
        lineTag 4 "expected JSON object"]) ∧
    lineTag 1 (jsonParseErrorText "BAD") ∈ perLineViolations
        "\x7b\"beginRendering\":\x7b\x7d\x7d\nBAD\n\x7b\"surfaceUpdate\":\x7b\x7d\x7d\n\n[1]" := by
  refine ⟨by decide, ?_, ?_⟩
  · have h := (claim_C1_collects_all_violations
      "\x7b\"beginRendering\":\x7b\x7d\x7d\nBAD\n\x7b\"surfaceUpdate\":\x7b\x7d\x7d\n\n[1]").2.2
      (by decide)
    rw [h]
    decide
  · exact (claim_C1_collects_all_violations
      "\x7b\"beginRendering\":\x7b\x7d\x7d\nBAD\n\x7b\"surfaceUpdate\":\x7b\x7d\x7d\n\n[1]").2.1
      (1, "BAD") (by decide) (lineTag 1 (jsonParseErrorText "BAD")) (by decide)

/-- C8.  Validating the empty string fails with the empty-stream
violation, and every successful validation reports at least one message:
a stream with zero non-blank parseable messages never succeeds. -/
theorem claim_C8_empty_stream (jsonl : String) (v : A2UIVersion) (n : Nat) :
    validateA2UIJsonl "" = Except.error (invalidMsg [emptyStreamText]) ∧
    (validateA2UIJsonl jsonl = Except.ok (v, n) → 1 ≤ n) := by
  constructor
  · decide
  · intro hok
    by_cases he : (validationErrors jsonl).isEmpty
    · have hnil : validationErrors jsonl = [] := by
        rcases h : validationErrors jsonl with _ | ⟨a, t⟩
        · rfl
        · rw [h] at he; cases he
      have hnb : nonBlankCount jsonl ≠ 0 := by
        intro h0
        have hmem : emptyStreamText ∈ validationErrors jsonl := by
          rw [validationErrors_eq]
          refine List.mem_append.mpr (Or.inr ?_)
          unfold streamViolations
          rw [if_pos h0]
          exact List.mem_append.mpr (Or.inl (List.mem_cons_self _ _))
        rw [hnil] at hmem
        cases hmem
      have hcount : (runValidate jsonl).messageCount = n := by
        unfold validateA2UIJsonl at hok
        rw [if_pos he] at hok
        have := (Except.ok.injEq _ _).mp hok
        exact congrArg Prod.snd this
      rw [runValidate_eq] at hcount
      simp only at hcount
      omega
    · unfold validateA2UIJsonl at hok
      rw [if_neg he] at hok
      cases hok

/-- Witness for C8: a one-message v0.8 stream validates successfully, and
the theorem yields `1 ≤ 1` for it. -/
theorem claim_C8_witness :
    validateA2UIJsonl "\x7b\"beginRendering\":\x7b\x7d\x7d" = Except.ok (A2UIVersion.v08, 1) ∧
    1 ≤ 1 := by
  refine ⟨by decide, ?_⟩
  exact (claim_C8_empty_stream "\x7b\"beginRendering\":\x7b\x7d\x7d" A2UIVersion.v08 1).2
    (by decide)

/-- C10.  Any payload with a non-blank line never reports the empty-stream
violation (each non-blank line is counted as a message before its
structural checks run), and when every non-blank line fails JSON parsing
the aggregated error list is exactly the per-line violations. -/
theorem claim_C10_no_empty_stream_report (jsonl : String)
    (hnb : ∃ line ∈ splitLines jsonl, jsTrim line ≠ "") :
    emptyStreamText ∉ validationErrors jsonl ∧
    ((∀ line ∈ splitLines jsonl, jsTrim line ≠ "" → classifyLine line = LineClass.parseError) →
      validationErrors jsonl = perLineViolations jsonl) := by
  have hpos : 0 < nonBlankCount jsonl := nonBlankCount_pos jsonl hnb
  constructor
  · intro hmem
    rw [validationErrors_eq] at hmem
    rcases List.mem_append.mp hmem with h | h
    · exact emptyStream_not_mem_perLine jsonl h
    · unfold streamViolations at h
      rw [if_neg (by omega)] at h
      rw [List.nil_append] at h
      by_cases hmix : ((splitLines jsonl).any isV08Line && (splitLines jsonl).any isV09Line) = true
      · rw [if_pos hmix] at h
        exact absurd (List.mem_singleton.mp h) (by decide)
      · rw [if_neg hmix] at h
        cases h
  · intro hall
    rw [validationErrors_eq]
    have hv8 : (splitLines jsonl).any isV08Line = false := by
      rw [List.any_eq_false]
      intro line hline
      unfold isV08Line actionKeyOf
      by_cases hb : jsTrim line = ""
      · rw [(classifyLine_blank_iff line).mpr hb]
        simp
      · rw [hall line hline hb]
        simp
    unfold streamViolations
    rw [if_neg (by omega), hv8]
    simp

/-- Witness for C10 at a payload whose two lines are both malformed: the
empty-stream violation is absent and only the two per-line violations
remain. -/
theorem claim_C10_witness :
    (∃ line ∈ splitLines "BAD1\nBAD2", jsTrim line ≠ "") ∧
    emptyStreamText ∉ validationErrors "BAD1\nBAD2" ∧
    validationErrors "BAD1\nBAD2" = perLineViolations "BAD1\nBAD2" := by
  refine ⟨by decide, (claim_C10_no_empty_stream_report "BAD1\nBAD2" (by decide)).1,
    (claim_C10_no_empty_stream_report "BAD1\nBAD2" (by decide)).2 (by decide)⟩

theorem versionA_ne_createSurface (k : String)
    (h : versionAKeys.contains k = true) : k ≠ "createSurface" := by
  have hm : k ∈ versionAKeys := by simpa using h
  simp [versionAKeys] at hm
  rcases hm with rfl | rfl | rfl | rfl <;> decide

theorem actionKeyOf_eq_some (line k : String) :
    actionKeyOf line = some k ↔ classifyLine line = LineClass.action k := by
  unfold actionKeyOf
  rcases hc : classifyLine line with _ | _ | _ | _ | k2 <;> simp [hc]

/-- A blank or well-formed line records no violation. -/
theorem lineViolation_none_of_wf (line : String)
    (h : jsTrim line = "" ∨ (actionKeyOf line).isSome) :
    ∀ i, lineViolation i line = none := by
  intro i
  unfold lineViolation
  rcases hc : classifyLine line with _ | _ | _ | _ | k <;> try rfl
  all_goals {
    exfalso
    rcases h with hb | hs
    · rw [(classifyLine_blank_iff line).mpr hb] at hc; cases hc
    · unfold actionKeyOf at hs; rw [hc] at hs; cases hs
  }

/-- C2 (amended).  For payloads whose non-blank lines are all well-formed
single-action-key objects: when at least one non-blank line exists and
every action key is a version-A key, validation succeeds with version
v0.8 and `messageCount` equal to the number of non-blank lines; when at
least one line uses `createSurface` and at least one uses a version-A
key, validation fails with exactly the mixed-versions violation. -/
theorem claim_C2_version_detection (jsonl : String)
    (hWF : ∀ line ∈ splitLines jsonl, jsTrim line = "" ∨ (actionKeyOf line).isSome) :
    ((∃ line ∈ splitLines jsonl, jsTrim line ≠ "") →
      (∀ line ∈ splitLines jsonl, ∀ k, actionKeyOf line = some k →
        versionAKeys.contains k = true) →
      validateA2UIJsonl jsonl = Except.ok (A2UIVersion.v08, nonBlankCount jsonl)) ∧
    ((∃ line ∈ splitLines jsonl, actionKeyOf line = some "createSurface") →
      (∃ line ∈ splitLines jsonl,
        (actionKeyOf line).any (fun k => versionAKeys.contains k) = true) →
      validateA2UIJsonl jsonl = Except.error (invalidMsg [mixedText])) := by
  have hperLine : perLineViolations jsonl = [] := by
    unfold perLineViolations perLineViolationsFrom
    exact filterMap_nil_of_all_none _ _ (fun p hp =>
      lineViolation_none_of_wf p.2 (hWF p.2 (snd_mem_of_mem_enumFrom 0 _ p hp)) p.1)
  constructor
  · intro hnb hall
    have hpos : 0 < nonBlankCount jsonl := nonBlankCount_pos jsonl hnb
    have hv9 : (splitLines jsonl).any isV09Line = false := by
      rw [List.any_eq_false]
      intro line hline
      unfold isV09Line
      cases hak : actionKeyOf line with
      | none => simp
      | some k =>
        have hk := versionA_ne_createSurface k (hall line hline k hak)
        simp [hk]
    have hval0 : validationErrors jsonl = [] := by
      rw [validationErrors_eq, hperLine]
      unfold streamViolations
      rw [if_neg (by omega), hv9]
      simp
    unfold validateA2UIJsonl
    rw [runValidate_eq]
    simp [hval0, hv9, nonBlankCount]
  · intro hv9ex hv8ex
    rcases hv9ex with ⟨l9, hl9, hak9⟩
    rcases hv8ex with ⟨l8, hl8, hak8⟩
    have ha9 : (splitLines jsonl).any isV09Line = true := by
      rw [List.any_eq_true]
      exact ⟨l9, hl9, by simp [isV09Line, hak9]⟩
    have ha8 : (splitLines jsonl).any isV08Line = true := by
      rw [List.any_eq_true]
      refine ⟨l8, hl8, ?_⟩
      unfold isV08Line
      cases hak : actionKeyOf l8 with
      | none => rw [hak] at hak8; cases hak8
      | some k =>
        rw [hak] at hak8
        simp only [Option.any_some] at hak8
        simp [versionA_ne_createSurface k hak8]
    have hpos : 0 < nonBlankCount jsonl := by
      apply nonBlankCount_pos
      refine ⟨l9, hl9, ?_⟩
      have hc := (actionKeyOf_eq_some l9 "createSurface").mp hak9
      exact action_not_blank l9 "createSurface" hc
    have hval : validationErrors jsonl = [mixedText] := by
      rw [validationErrors_eq, hperLine]
      unfold streamViolations
      rw [if_neg (by omega), ha8, ha9]
      simp
    unfold validateA2UIJsonl
    simp [hval]

/-- Counterexample to C2 as stated: the empty payload has no non-blank
lines, so it vacuously satisfies the claim's hypotheses (every non-blank
line is a well-formed version-A object), yet validation fails with the
empty-stream violation instead of succeeding. -/
theorem claim_C2_counterexample :
    (∀ line ∈ splitLines "", jsTrim line = "" ∨ (actionKeyOf line).isSome) ∧
    (∀ line ∈ splitLines "", ∀ k, actionKeyOf line = some k →
      versionAKeys.contains k = true) ∧
    validateA2UIJsonl "" ≠ Except.ok (A2UIVersion.v08, nonBlankCount "") := by
  decide

/-- Witness for C2 at the spec's concrete scenarios A and B. -/
theorem claim_C2_witness :
    validateA2UIJsonl
        "\x7b\"beginRendering\":\x7b\"surfaceId\":\"main\",\"root\":\"root\"\x7d\x7d\n\x7b\"surfaceUpdate\":\x7b\"surfaceId\":\"main\",\"components\":[]\x7d\x7d" =
      Except.ok (A2UIVersion.v08,
        nonBlankCount
          "\x7b\"beginRendering\":\x7b\"surfaceId\":\"main\",\"root\":\"root\"\x7d\x7d\n\x7b\"surfaceUpdate\":\x7b\"surfaceId\":\"main\",\"components\":[]\x7d\x7d") ∧
    validateA2UIJsonl "\x7b\"createSurface\":\x7b\x7d\x7d\n\x7b\"beginRendering\":\x7b\x7d\x7d" =
      Except.error (invalidMsg [mixedText]) := by
  refine ⟨?_, ?_⟩
  · exact (claim_C2_version_detection
      "\x7b\"beginRendering\":\x7b\"surfaceId\":\"main\",\"root\":\"root\"\x7d\x7d\n\x7b\"surfaceUpdate\":\x7b\"surfaceId\":\"main\",\"components\":[]\x7d\x7d"
      (by decide)).1 (by decide) (by decide)
  · exact (claim_C2_version_detection
      "\x7b\"createSurface\":\x7b\x7d\x7d\n\x7b\"beginRendering\":\x7b\x7d\x7d"
      (by decide)).2 (by decide) (by decide)

/-- The v0.9 rejection thrown by `canvas a2ui push` after successful
validation: `Detected A2UI v0.9 JSONL (createSurface). Clawdbot currently
supports v0.8 only.` -/
def unsupportedVersionText : String :=
  "Detected A2UI v0.9 JSONL (createSurface). Clawdbot currently supports v0.8 only."

/-- `String(err)` for a thrown `Error` object. -/
def jsErrorToString (msg : String) : String := "Error: " ++ msg

/-- ``canvas a2ui push failed: ${String(err)}`` from the command's catch
handler. -/
def pushFailedMsg (msg : String) : String :=
  "canvas a2ui push failed: " ++ jsErrorToString msg

/-- Observable outcome of the `canvas a2ui push` action: either the
payload is forwarded to the gateway (`node.invoke` with
`canvas.a2ui.pushJSONL`), or the command fails with a message. -/
inductive PushOutcome where
  | pushed (jsonl : String)
  | failed (msg : String)
deriving DecidableEq

/-- The `canvas a2ui push` action of `registerCanvasCli` for a JSONL
payload: validate, reject v0.9 streams, and only then forward the payload
to the gateway. -/
def canvasA2uiPush (jsonl : String) : PushOutcome :=
  match validateA2UIJsonl jsonl with
  | Except.error e => PushOutcome.failed (pushFailedMsg e)
  | Except.ok (v, _count) =>
    if v = A2UIVersion.v09 then PushOutcome.failed (pushFailedMsg unsupportedVersionText)
    else PushOutcome.pushed jsonl

theorem string_append_right_inj (p a b : String) (h : p ++ a = p ++ b) : a = b := by
  have hd : p.data ++ a.data = p.data ++ b.data := by
    rw [← data_append, ← data_append, h]
  have hab : a.data = b.data := List.append_cancel_left hd
  cases a; cases b; exact congrArg String.mk hab

/-- Every aggregated validation failure begins with `Invalid`. -/
theorem invalidMsg_head (errs : List String) : (invalidMsg errs).data.head? = some 'I' := by
  show ("Invalid A2UI JSONL:\n- " ++ String.intercalate "\n- " errs).data.head? = some 'I'
  rw [data_append]
  have h5 : "Invalid A2UI JSONL:\n- ".data =
      'I' :: "nvalid A2UI JSONL:\n- ".data := rfl
  rw [h5]
  simp

/-- C9.  A structurally valid stream that validates as v0.9 (pure
`createSurface` content) is rejected with the unsupported-version error,
whose message differs from every aggregated validation-failure message,
and the payload is never forwarded to the gateway. -/
theorem claim_C9_unsupported_version (jsonl : String) (n : Nat)
    (hok : validateA2UIJsonl jsonl = Except.ok (A2UIVersion.v09, n)) :
    canvasA2uiPush jsonl = PushOutcome.failed (pushFailedMsg unsupportedVersionText) ∧
    (∀ errs : List String,
      pushFailedMsg unsupportedVersionText ≠ pushFailedMsg (invalidMsg errs)) ∧
    (∀ s, canvasA2uiPush jsonl ≠ PushOutcome.pushed s) := by
  have hpush : canvasA2uiPush jsonl = PushOutcome.failed (pushFailedMsg unsupportedVersionText) := by
    unfold canvasA2uiPush
    rw [hok]
    rfl
  refine ⟨hpush, ?_, ?_⟩
  · intro errs heq
    have h1 : jsErrorToString unsupportedVersionText = jsErrorToString (invalidMsg errs) :=
      string_append_right_inj _ _ _ heq
    have h2 : unsupportedVersionText = invalidMsg errs :=
      string_append_right_inj _ _ _ h1
    have h3 : unsupportedVersionText.data.head? = (invalidMsg errs).data.head? := by rw [h2]
    rw [invalidMsg_head] at h3
    have h4 : unsupportedVersionText.data.head? = some 'D' := rfl
    rw [h4] at h3
    cases h3
  · intro s hs
    rw [hpush] at hs
    cases hs

/-- Witness for C9: a pure-`createSurface` payload validates as v0.9, is
rejected with the unsupported-version message, and is never pushed. -/
theorem claim_C9_witness :
    validateA2UIJsonl "\x7b\"createSurface\":\x7b\x7d\x7d" = Except.ok (A2UIVersion.v09, 1) ∧
    canvasA2uiPush "\x7b\"createSurface\":\x7b\x7d\x7d" =
      PushOutcome.failed (pushFailedMsg unsupportedVersionText) ∧
    (∀ s, canvasA2uiPush "\x7b\"createSurface\":\x7b\x7d\x7d" ≠ PushOutcome.pushed s) := by
  refine ⟨by decide,
    (claim_C9_unsupported_version "\x7b\"createSurface\":\x7b\x7d\x7d" 1 (by decide)).1,
    (claim_C9_unsupported_version "\x7b\"createSurface\":\x7b\x7d\x7d" 1 (by decide)).2.2⟩

theorem char_le_iff (a b : Char) : a ≤ b ↔ a.toNat ≤ b.toNat := Iff.rfl

theorem alnum_facts (c : Char) (h : isLowerAlnum c = true) :
    (97 ≤ c.toNat ∧ c.toNat ≤ 122) ∨ (48 ≤ c.toNat ∧ c.toNat ≤ 57) := by
  have h2 := of_decide_eq_true h
  rcases h2 with ⟨h3, h4⟩ | ⟨h3, h4⟩
  · exact Or.inl ⟨(char_le_iff _ _).mp h3, (char_le_iff _ _).mp h4⟩
  · exact Or.inr ⟨(char_le_iff _ _).mp h3, (char_le_iff _ _).mp h4⟩

theorem alnum_toLower_fix (c : Char) (h : isLowerAlnum c = true) :
    jsToLowerChar c = c := by
  unfold jsToLowerChar
  rw [if_neg]
  intro hup
  rcases hup with ⟨h1, h2⟩
  have h3 : (65 : Nat) ≤ c.toNat := (char_le_iff _ _).mp h1
  have h4 : c.toNat ≤ 90 := (char_le_iff _ _).mp h2
  rcases alnum_facts c h with ⟨h5, h6⟩ | ⟨h5, h6⟩ <;> omega

theorem dash_toLower_fix : jsToLowerChar '-' = '-' := by decide

theorem alnum_ne_dash (c : Char) (h : isLowerAlnum c = true) : c ≠ '-' := by
  intro hc
  rw [hc] at h
  cases h

/-- Characters emitted by the run-collapsing replacement: kept alphanumerics
or the inserted dash. -/
theorem mem_collapseRuns :
    ∀ (l : List Char) (b : Bool) (c : Char), c ∈ collapseRuns b l →
      isLowerAlnum c = true ∨ c = '-' := by
  intro l
  induction l with
  | nil => intro b c hc; cases hc
  | cons a as ih =>
    intro b c hc
    unfold collapseRuns at hc
    by_cases ha : isLowerAlnum a = true
    · rw [if_pos ha] at hc
      rcases List.mem_cons.mp hc with h | h
      · rw [h]; exact Or.inl ha
      · exact ih false c h
    · rw [if_neg ha] at hc
      cases b with
      | true => exact ih true c (by simpa using hc)
      | false =>
        simp only [Bool.false_eq_true, if_false] at hc
        rcases List.mem_cons.mp hc with h | h
        · exact Or.inr h
        · exact ih true c h

/-- While inside a run, the next emitted character is an alphanumeric. -/
theorem head_collapseRuns_true :
    ∀ (l : List Char) (c : Char), (collapseRuns true l).head? = some c →
      isLowerAlnum c = true := by
  intro l
  induction l with
  | nil => intro c hc; cases hc
  | cons a as ih =>
    intro c hc
    unfold collapseRuns at hc
    by_cases ha : isLowerAlnum a = true
    · rw [if_pos ha] at hc
      rw [List.head?_cons] at hc
      cases hc
      exact ha
    · rw [if_neg ha] at hc
      simp only [if_true] at hc
      exact ih c hc

/-- No two adjacent dashes. -/
def noDashPair : List Char → Bool
  | [] => true
  | [_] => true
  | a :: b :: rest => (!(a == '-' && b == '-')) && noDashPair (b :: rest)

theorem noDashPair_tail (x : Char) (l : List Char)
    (h : noDashPair (x :: l) = true) : noDashPair l = true := by
  cases l with
  | nil => rfl
  | cons y t =>
    unfold noDashPair at h
    exact (Bool.and_eq_true_iff.mp h).2

theorem noDashPair_cons_of_ne (a : Char) (l : List Char)
    (ha : a ≠ '-') (h : noDashPair l = true) : noDashPair (a :: l) = true := by
  cases l with
  | nil => rfl
  | cons y t =>
    unfold noDashPair
    rw [Bool.and_eq_true_iff]
    refine ⟨?_, h⟩
    simp [ha]

theorem noDashPair_cons_dash (l : List Char)
    (hhead : ∀ c, l.head? = some c → c ≠ '-') (h : noDashPair l = true) :
    noDashPair ('-' :: l) = true := by
  cases l with
  | nil => rfl
  | cons y t =>
    unfold noDashPair
    rw [Bool.and_eq_true_iff]
    refine ⟨?_, h⟩
    have hy : y ≠ '-' := hhead y rfl
    simp [hy]

theorem noDashPair_collapse :
    ∀ (l : List Char) (b : Bool), noDashPair (collapseRuns b l) = true := by
  intro l
  induction l with
  | nil => intro b; rfl
  | cons a as ih =>
    intro b
    unfold collapseRuns
    by_cases ha : isLowerAlnum a = true
    · rw [if_pos ha]
      exact noDashPair_cons_of_ne a _ (alnum_ne_dash a ha) (ih false)
    · rw [if_neg ha]
      cases b with
      | true => simpa using ih true
      | false =>
        simp only [Bool.false_eq_true, if_false]
        refine noDashPair_cons_dash _ ?_ (ih true)
        intro c hc
        exact alnum_ne_dash c (head_collapseRuns_true as c hc)

theorem noDashPair_append_right :
    ∀ (a b : List Char), noDashPair (a ++ b) = true → noDashPair b = true := by
  intro a
  induction a with
  | nil => intro b h; exact h
  | cons x xs ih => intro b h; exact ih b (noDashPair_tail x _ h)

theorem noDashPair_append_left :
    ∀ (a b : List Char), noDashPair (a ++ b) = true → noDashPair a = true := by
  intro a
  induction a with
  | nil => intro b _; rfl
  | cons x xs ih =>
    intro b h
    cases xs with
    | nil => rfl
    | cons y t =>
      simp only [noDashPair] at h ⊢
      rw [Bool.and_eq_true_iff] at h ⊢
      exact ⟨h.1, ih b h.2⟩

/-- Shape of a fully normalized key: alphanumerics, with single dashes
only between alphanumerics (in particular no leading/adjacent/trailing
dash after the constructors are combined with a non-dash head). -/
inductive NormalSeq : List Char → Prop where
  | nil : NormalSeq []
  | alnum {c : Char} {l : List Char} :
      isLowerAlnum c = true → NormalSeq l → NormalSeq (c :: l)
  | dash {c : Char} {l : List Char} :
      isLowerAlnum c = true → NormalSeq (c :: l) → NormalSeq ('-' :: c :: l)

theorem dropWhile_head_not (p : Char → Bool) :
    ∀ (l : List Char) (c : Char), (l.dropWhile p).head? = some c → p c = false := by
  intro l
  induction l with
  | nil => intro c hc; cases hc
  | cons a as ih =>
    intro c hc
    rw [List.dropWhile_cons] at hc
    by_cases ha : p a = true
    · rw [if_pos ha] at hc
      exact ih c hc
    · rw [if_neg ha] at hc
      rw [List.head?_cons] at hc
      cases hc
      exact Bool.not_eq_true _ ▸ Bool.of_not_eq_true ha

theorem normalSeq_of_props :
    ∀ (N : Nat) (l : List Char), l.length ≤ N →
      (∀ c ∈ l, isLowerAlnum c = true ∨ c = '-') → noDashPair l = true →
      (∀ c, l.getLast? = some c → c ≠ '-') → NormalSeq l := by
  intro N
  induction N with
  | zero =>
    intro l hlen _ _ _
    have hnil : l = [] := List.eq_nil_of_length_eq_zero (Nat.le_zero.mp hlen)
    rw [hnil]
    exact NormalSeq.nil
  | succ N ih =>
    intro l hlen hchars hnd hlast
    cases l with
    | nil => exact NormalSeq.nil
    | cons c rest =>
      cases rest with
      | nil =>
        have hc : c ≠ '-' := hlast c rfl
        rcases hchars c (List.mem_cons_self _ _) with h | h
        · exact NormalSeq.alnum h NormalSeq.nil
        · exact absurd h hc
      | cons d t =>
        have hrec : NormalSeq (d :: t) := by
          refine ih (d :: t) ?_ (fun x hx => hchars x (List.mem_cons_of_mem _ hx))
            (noDashPair_tail c _ hnd) (fun x hx => hlast x hx)
          simp at hlen ⊢
          omega
        rcases hchars c (List.mem_cons_self _ _) with h | h
        · exact NormalSeq.alnum h hrec
        · have hd : d ≠ '-' := by
            simp only [noDashPair] at hnd
            rw [Bool.and_eq_true_iff] at hnd
            intro hdd
            rw [h, hdd] at hnd
            simp at hnd
          have hdal : isLowerAlnum d = true := by
            rcases hchars d (List.mem_cons_of_mem _ (List.mem_cons_self _ _)) with h2 | h2
            · exact h2
            · exact absurd h2 hd
          rw [h]
          exact NormalSeq.dash hdal hrec

theorem collapseRuns_fixed (l : List Char) (h : NormalSeq l) :
    collapseRuns false l = l := by
  induction h with
  | nil => rfl
  | alnum hc _ ihrec => simp [collapseRuns, hc, ihrec]
  | dash hc _ ihrec =>
    rename_i c l2 _
    have ih2 : collapseRuns false l2 = l2 := by
      simpa [collapseRuns, hc] using ihrec
    simp [collapseRuns, hc, ih2, show isLowerAlnum '-' = false from rfl]

theorem map_toLower_fixed :
    ∀ (l : List Char), (∀ c ∈ l, isLowerAlnum c = true ∨ c = '-') →
      l.map jsToLowerChar = l := by
  intro l
  induction l with
  | nil => intro _; rfl
  | cons a as ih =>
    intro h
    rw [List.map_cons, ih (fun c hc => h c (List.mem_cons_of_mem _ hc))]
    rcases h a (List.mem_cons_self _ _) with h2 | h2
    · rw [alnum_toLower_fix a h2]
    · rw [h2, dash_toLower_fix]

theorem mem_of_mem_dropWhile (p : Char → Bool) (l : List Char) (c : Char)
    (h : c ∈ l.dropWhile p) : c ∈ l := by
  have hd := List.takeWhile_append_dropWhile p l
  rw [← hd]
  exact List.mem_append.mpr (Or.inr h)

/-- The right-trimmed list is a prefix: `l = rtrim l ++ junk`. -/
theorem rtrim_decomp (p : Char → Bool) (l : List Char) :
    l = (l.reverse.dropWhile p).reverse ++ (l.reverse.takeWhile p).reverse := by
  have hd := List.takeWhile_append_dropWhile p l.reverse
  have h2 : l.reverse.reverse = (l.reverse.takeWhile p ++ l.reverse.dropWhile p).reverse := by
    rw [hd]
  rw [List.reverse_reverse, List.reverse_append] at h2
  exact h2

theorem prefix_head (n j l : List Char) (hl : l = n ++ j) (c : Char)
    (h : n.head? = some c) : l.head? = some c := by
  cases n with
  | nil => cases h
  | cons x t =>
    rw [List.head?_cons] at h
    rw [hl, List.cons_append, List.head?_cons]
    exact h

theorem dropWhile_fixed (p : Char → Bool) (l : List Char)
    (h : ∀ c, l.head? = some c → p c = false) : l.dropWhile p = l := by
  cases l with
  | nil => rfl
  | cons a as =>
    rw [List.dropWhile_cons, if_neg]
    rw [h a rfl]
    simp

/-- Structural facts about the output of `normalizeChars`: characters are
kept alphanumerics or dashes, dashes are never adjacent, and the result
neither starts nor ends with a dash. -/
theorem normalizeChars_props (l : List Char) :
    (∀ c ∈ normalizeChars l, isLowerAlnum c = true ∨ c = '-') ∧
    noDashPair (normalizeChars l) = true ∧
    (∀ c, (normalizeChars l).head? = some c → c ≠ '-') ∧
    (∀ c, (normalizeChars l).getLast? = some c → c ≠ '-') := by
  unfold normalizeChars
  refine ⟨?_, ?_, ?_, ?_⟩
  · intro c hc
    have s1 : c ∈ ((collapseRuns false (l.map jsToLowerChar)).dropWhile
        (fun c => decide (c = '-'))).reverse.dropWhile (fun c => decide (c = '-')) :=
      (List.mem_reverse).mp hc
    have s2 : c ∈ ((collapseRuns false (l.map jsToLowerChar)).dropWhile
        (fun c => decide (c = '-'))).reverse := mem_of_mem_dropWhile _ _ c s1
    have s3 : c ∈ (collapseRuns false (l.map jsToLowerChar)).dropWhile
        (fun c => decide (c = '-')) := (List.mem_reverse).mp s2
    exact mem_collapseRuns _ false c (mem_of_mem_dropWhile _ _ c s3)
  · apply noDashPair_append_left _ _
    rw [← rtrim_decomp]
    apply noDashPair_append_right ((collapseRuns false (l.map jsToLowerChar)).takeWhile
      (fun c => decide (c = '-')))
    rw [List.takeWhile_append_dropWhile]
    exact noDashPair_collapse _ false
  · intro c hc
    have h1 := prefix_head _ _ _ (rtrim_decomp (fun c => decide (c = '-'))
      ((collapseRuns false (l.map jsToLowerChar)).dropWhile (fun c => decide (c = '-')))) c hc
    have h2 := dropWhile_head_not _ _ _ h1
    exact of_decide_eq_false h2
  · intro c hc
    rw [← List.head?_reverse, List.reverse_reverse] at hc
    exact of_decide_eq_false (dropWhile_head_not _ _ _ hc)

/-- A fully normalized key is a fixed point of `normalizeChars`. -/
theorem normalizeChars_fixed (n : List Char)
    (hchars : ∀ c ∈ n, isLowerAlnum c = true ∨ c = '-')
    (hseq : NormalSeq n)
    (hhead : ∀ c, n.head? = some c → c ≠ '-')
    (hlast : ∀ c, n.getLast? = some c → c ≠ '-') :
    normalizeChars n = n := by
  unfold normalizeChars
  rw [map_toLower_fixed n hchars, collapseRuns_fixed n hseq]
  show (List.dropWhile (fun c => decide (c = '-'))
    (List.dropWhile (fun c => decide (c = '-')) n).reverse).reverse = n
  rw [dropWhile_fixed _ n (fun c hc => decide_eq_false (hhead c hc))]
  rw [dropWhile_fixed _ n.reverse (fun c hc => by
    rw [List.head?_reverse] at hc
    exact decide_eq_false (hlast c hc))]
  exact List.reverse_reverse n

theorem normalizeChars_idem (l : List Char) :
    normalizeChars (normalizeChars l) = normalizeChars l := by
  obtain ⟨h1, h2, h3, h4⟩ := normalizeChars_props l
  have hseq := normalSeq_of_props (normalizeChars l).length _ (Nat.le_refl _) h1 h2 h4
  exact normalizeChars_fixed _ h1 hseq h3 h4

/-- C5.  `normalizeNodeKey` is idempotent, and normalizes `"My Node!!"`
and `"my-node"` to the same key. -/
theorem claim_C5_normalize_idempotent :
    (∀ s : String, normalizeNodeKey (normalizeNodeKey s) = normalizeNodeKey s) ∧
    normalizeNodeKey "My Node!!" = normalizeNodeKey "my-node" := by
  constructor
  · intro s
    exact congrArg String.mk (normalizeChars_idem s.data)
  · decide

/-- `resolveNodeId` on an empty (or absent) query delegates to
`pickDefaultNode`. -/
theorem resolveNodeId_empty_query (nodes : List NodeListNode) (query : Option String)
    (hq : jsTrim (match query with | some s => s | none => "") = "") :
    resolveNodeId nodes query =
      (match pickDefaultNode nodes with
       | some picked => Except.ok picked.nodeId
       | none => Except.error nodeRequiredMsg) := by
  unfold resolveNodeId
  simp only [hq, if_pos]

/-- `resolveNodeId` on a non-empty trimmed query filters the directory
with the match predicate. -/
theorem resolveNodeId_query (nodes : List NodeListNode) (q : String)
    (htrim : jsTrim q = q) (hne : q ≠ "") :
    resolveNodeId nodes (some q) =
      (match nodes.filter (nodeMatchesQuery q (normalizeNodeKey q)) with
       | [n] => Except.ok n.nodeId
       | [] => Except.error (unknownNodeMsg q nodes)
       | ms => Except.error (ambiguousNodeMsg q ms)) := by
  unfold resolveNodeId
  simp only [htrim, if_neg hne]

theorem pickDefault_unique_connected (nodes : List NodeListNode) (x : NodeListNode)
    (h : nodes.filter (fun n => isConnectedNode n && capsAllowCanvas n) = [x]) :
    pickDefaultNode nodes = some x := by
  have hff : (nodes.filter capsAllowCanvas).filter isConnectedNode = [x] := by
    rw [List.filter_filter capsAllowCanvas nodes]
    exact h
  have hne : (nodes.filter capsAllowCanvas).isEmpty = false := by
    rcases hcase : nodes.filter capsAllowCanvas with _ | ⟨a, t⟩
    · rw [hcase] at hff; cases hff
    · rfl
  simp [pickDefaultNode, hne, hff]

theorem pickDefault_unique_capable (nodes : List NodeListNode) (x : NodeListNode)
    (hconn : ∀ n ∈ nodes, isConnectedNode n = false)
    (hcap : nodes.filter capsAllowCanvas = [x]) :
    pickDefaultNode nodes = some x := by
  have hx : x ∈ nodes := by
    have hxm : x ∈ nodes.filter capsAllowCanvas := by
      rw [hcap]; exact List.mem_cons_self _ _
    exact (List.mem_filter.mp hxm).1
  have hconnx : [x].filter isConnectedNode = [] := by
    simp [List.filter, hconn x hx]
  simp [pickDefaultNode, hcap, hconnx]

/-- C4.  With an empty or absent query, default resolution returns the
unique node that is both connected and canvas-capable; and when no node
is connected, it returns the unique capable node. -/
theorem claim_C4_default_selection (nodes : List NodeListNode) (query : Option String)
    (x : NodeListNode)
    (hq : jsTrim (match query with | some s => s | none => "") = "") :
    (nodes.filter (fun n => isConnectedNode n && capsAllowCanvas n) = [x] →
      resolveNodeId nodes query = Except.ok x.nodeId) ∧
    ((∀ n ∈ nodes, isConnectedNode n = false) →
      nodes.filter capsAllowCanvas = [x] →
      resolveNodeId nodes query = Except.ok x.nodeId) := by
  constructor
  · intro h
    rw [resolveNodeId_empty_query nodes query hq, pickDefault_unique_connected nodes x h]
  · intro hconn hcap
    rw [resolveNodeId_empty_query nodes query hq, pickDefault_unique_capable nodes x hconn hcap]

/-- Witness for C4: a two-node fleet with one connected capable node, and
a two-node fleet with no connected node and one capable node. -/
theorem claim_C4_witness :
    resolveNodeId
      [⟨"mac-1", none, none, none, some ["canvas"], some true⟩,
       ⟨"pc-2", none, none, none, some ["canvas"], some false⟩] none = Except.ok "mac-1" ∧
    resolveNodeId
      [⟨"n1", none, none, none, some ["canvas"], none⟩,
       ⟨"n2", none, none, none, some [], none⟩] none = Except.ok "n1" := by
  constructor
  · exact (claim_C4_default_selection
      [⟨"mac-1", none, none, none, some ["canvas"], some true⟩,
       ⟨"pc-2", none, none, none, some ["canvas"], some false⟩] none
      ⟨"mac-1", none, none, none, some ["canvas"], some true⟩ (by decide)).1 (by decide)
  · exact (claim_C4_default_selection
      [⟨"n1", none, none, none, some ["canvas"], none⟩,
       ⟨"n2", none, none, none, some [], none⟩] none
      ⟨"n1", none, none, none, some ["canvas"], none⟩ (by decide)).2 (by decide) (by decide)

/-- The candidate list of `pickDefaultNode` after the connected filter
(connected capable nodes when any, else all capable nodes). -/
def defaultCandidates (nodes : List NodeListNode) : List NodeListNode :=
  let withCanvas := nodes.filter capsAllowCanvas
  let connected := withCanvas.filter isConnectedNode
  if connected.length > 0 then connected else withCanvas

theorem pickDefaultNode_eq (nodes : List NodeListNode) :
    pickDefaultNode nodes =
      (if (nodes.filter capsAllowCanvas).isEmpty then none
       else if (defaultCandidates nodes).length = 1 then (defaultCandidates nodes).head?
       else if ((defaultCandidates nodes).filter isLocalMacNode).length = 1 then
         ((defaultCandidates nodes).filter isLocalMacNode).head?
       else none) := rfl

/-- C7 (amended).  `pickDefaultNode` does not distinguish its two failure
modes: both the no-capable-node case and the ambiguous case return `null`,
so `resolveNodeId` raises the same single `node required (...)` error for
both. -/
theorem claim_C7_failure_modes_not_distinguished (nodes : List NodeListNode)
    (query : Option String)
    (hq : jsTrim (match query with | some s => s | none => "") = "") :
    (nodes.filter capsAllowCanvas = [] →
      resolveNodeId nodes query = Except.error nodeRequiredMsg) ∧
    (2 ≤ (defaultCandidates nodes).length →
      ((defaultCandidates nodes).filter isLocalMacNode).length ≠ 1 →
      resolveNodeId nodes query = Except.error nodeRequiredMsg) := by
  rw [resolveNodeId_empty_query nodes query hq]
  constructor
  · intro hcap
    rw [pickDefaultNode_eq, hcap]
    rfl
  · intro hlen hloc
    have hne : (nodes.filter capsAllowCanvas).isEmpty = false := by
      rcases hcase : nodes.filter capsAllowCanvas with _ | ⟨a, t⟩
      · exfalso
        have : defaultCandidates nodes = [] := by
          unfold defaultCandidates
          rw [hcase]
          rfl
        rw [this] at hlen
        simp at hlen
      · rfl
    rw [pickDefaultNode_eq, hne]
    simp only [Bool.false_eq_true, if_false]
    rw [if_neg (by omega), if_neg hloc]

/-- Counterexample to C7 as stated: a directory with no capable node and a
directory with two equally-valid connected candidates fail with the very
same error value — the two failure modes are not distinguished. -/
theorem claim_C7_counterexample :
    resolveNodeId [⟨"n1", none, none, none, some [], none⟩] none =
      Except.error nodeRequiredMsg ∧
    resolveNodeId
      [⟨"a", none, none, none, none, some true⟩,
       ⟨"b", none, none, none, none, some true⟩] none =
      Except.error nodeRequiredMsg ∧
    resolveNodeId [⟨"n1", none, none, none, some [], none⟩] none =
      resolveNodeId
        [⟨"a", none, none, none, none, some true⟩,
         ⟨"b", none, none, none, none, some true⟩] none := by
  decide

/-- Witness for the amended C7: the no-capable directory hits the first
failure mode, the two-connected-nodes directory the second; both produce
the same `node required` error. -/
theorem claim_C7_witness :
    resolveNodeId [⟨"n1", none, none, none, some [], none⟩] none =
      Except.error nodeRequiredMsg ∧
    resolveNodeId
      [⟨"a", none, none, none, none, some true⟩,
       ⟨"b", none, none, none, none, some true⟩] none =
      Except.error nodeRequiredMsg := by
  constructor
  · exact (claim_C7_failure_modes_not_distinguished
      [⟨"n1", none, none, none, some [], none⟩] none (by decide)).1 (by decide)
  · exact (claim_C7_failure_modes_not_distinguished
      [⟨"a", none, none, none, none, some true⟩,
       ⟨"b", none, none, none, none, some true⟩] none (by decide)).2 (by decide) (by decide)

/-- C3.  A non-empty query shorter than 6 characters that is a strict
prefix of some node id but equals no id or remote address, and whose
normalized form matches no display name, resolves to the unknown-node
error: id-prefix matching never activates below 6 characters. -/
theorem claim_C3_short_prefix_unknown (nodes : List NodeListNode) (q : String)
    (htrim : jsTrim q = q) (hne : q ≠ "") (hlen : q.length < 6)
    (_hpre : ∃ n ∈ nodes, strStartsWith n.nodeId q = true ∧ n.nodeId ≠ q)
    (hid : ∀ n ∈ nodes, n.nodeId ≠ q)
    (hip : ∀ n ∈ nodes, n.remoteIp ≠ some q)
    (hname : ∀ n ∈ nodes, ∀ s, n.displayName = some s →
      normalizeNodeKey s ≠ normalizeNodeKey q) :
    resolveNodeId nodes (some q) = Except.error (unknownNodeMsg q nodes) := by
  rw [resolveNodeId_query nodes q htrim hne]
  have hfil : nodes.filter (nodeMatchesQuery q (normalizeNodeKey q)) = [] := by
    rw [List.filter_eq_nil_iff]
    intro n hn
    have h1 : n.nodeId ≠ q := hid n hn
    have h2 : (match n.remoteIp with | some ip => ip == q | none => false) = false := by
      cases hip2 : n.remoteIp with
      | none => rfl
      | some ip =>
        have hipne : ip ≠ q := fun he => hip n hn (by rw [hip2, he])
        simp [hipne]
    have h3 : ¬(6 ≤ q.length) := by omega
    intro hmatch
    rw [nodeMatchesQuery] at hmatch
    rw [if_neg h1, h2] at hmatch
    simp only [Bool.false_eq_true, if_false] at hmatch
    have hnamecond : ¬((match n.displayName with | some s => s | none => "") ≠ "" ∧
        normalizeNodeKey (match n.displayName with | some s => s | none => "") =
          normalizeNodeKey q) := by
      cases hdn : n.displayName with
      | none => simp
      | some s =>
        intro hcon
        exact hname n hn s hdn hcon.2
    rw [if_neg hnamecond] at hmatch
    rw [if_neg ?hlencond] at hmatch
    · cases hmatch
    case hlencond =>
      intro hcon
      exact h3 hcon.1
  rw [hfil]

/-- Witness for C3: `"abcde"` (5 characters) is a strict prefix of the
only node id `"abcdef-node"`, yet resolution fails with `UnknownNode`. -/
theorem claim_C3_witness :
    resolveNodeId [⟨"abcdef-node", none, none, none, none, none⟩] (some "abcde") =
      Except.error (unknownNodeMsg "abcde" [⟨"abcdef-node", none, none, none, none, none⟩]) := by
  exact claim_C3_short_prefix_unknown [⟨"abcdef-node", none, none, none, none, none⟩]
    "abcde" (by decide) (by decide) (by decide) (by decide) (by decide) (by decide) (by decide)

/-- Counterexample to C6 as stated: the query `"abc"` equals the first
node's exact id, but a second node's display name normalizes to the same
key, so resolution fails with the ambiguous-node error instead of
returning the first node's id.  Display-name normalization does affect
exact-id queries. -/
theorem claim_C6_counterexample :
    resolveNodeId
        [⟨"abc", none, none, none, none, none⟩,
         ⟨"n2", some "abc", none, none, none, none⟩] (some "abc") ≠
      Except.ok "abc" ∧
    resolveNodeId
        [⟨"abc", none, none, none, none, none⟩,
         ⟨"n2", some "abc", none, none, none, none⟩] (some "abc") =
      Except.error (ambiguousNodeMsg "abc"
        [⟨"abc", none, none, none, none, none⟩,
         ⟨"n2", some "abc", none, none, none, none⟩]) := by
  decide

/-- C6 (amended).  A query equal to a node's exact id or exact remote
address resolves to that node — regardless of that node's display name —
provided no other directory entry matches the query and the directory has
no duplicate records. -/
theorem claim_C6_exact_id_or_ip (nodes : List NodeListNode) (q : String)
    (x : NodeListNode)
    (htrim : jsTrim q = q) (hne : q ≠ "")
    (hx : x ∈ nodes)
    (hexact : x.nodeId = q ∨ x.remoteIp = some q)
    (hnodup : nodes.Nodup)
    (honly : ∀ m ∈ nodes, nodeMatchesQuery q (normalizeNodeKey q) m = true → m = x) :
    resolveNodeId nodes (some q) = Except.ok x.nodeId := by
  rw [resolveNodeId_query nodes q htrim hne]
  have hmx : nodeMatchesQuery q (normalizeNodeKey q) x = true := by
    rcases hexact with h | h
    · simp [nodeMatchesQuery, h]
    · simp [nodeMatchesQuery, h]
  have hxf : x ∈ nodes.filter (nodeMatchesQuery q (normalizeNodeKey q)) :=
    List.mem_filter.mpr ⟨hx, hmx⟩
  have hsub : ∀ m ∈ nodes.filter (nodeMatchesQuery q (normalizeNodeKey q)), m = x := by
    intro m hm
    have h2 := List.mem_filter.mp hm
    exact honly m h2.1 h2.2
  have hnd : (nodes.filter (nodeMatchesQuery q (normalizeNodeKey q))).Nodup :=
    hnodup.filter _
  have hfil : nodes.filter (nodeMatchesQuery q (normalizeNodeKey q)) = [x] := by
    rcases hcase : nodes.filter (nodeMatchesQuery q (normalizeNodeKey q)) with _ | ⟨a, t⟩
    · rw [hcase] at hxf; cases hxf
    · have ha : a = x := hsub a (by rw [hcase]; exact List.mem_cons_self _ _)
      rcases hcaset : t with _ | ⟨b, t2⟩
      · rw [ha]
      · exfalso
        have hb : b = x := hsub b (by
          rw [hcase, hcaset]
          exact List.mem_cons_of_mem _ (List.mem_cons_self _ _))
        rw [hcase, hcaset] at hnd
        rcases List.nodup_cons.mp hnd with ⟨hna, _⟩
        apply hna
        rw [ha, hb]
        exact List.mem_cons_self _ _
  rw [hfil]

/-- Witness for the amended C6: a node addressed by its exact remote IP,
whose display name normalizes to something unrelated to the query. -/
theorem claim_C6_witness :
    resolveNodeId [⟨"node-1", some "Studio Mac", none, some "10.0.0.5", none, none⟩]
      (some "10.0.0.5") = Except.ok "node-1" := by
  exact claim_C6_exact_id_or_ip
    [⟨"node-1", some "Studio Mac", none, some "10.0.0.5", none, none⟩] "10.0.0.5"
    ⟨"node-1", some "Studio Mac", none, some "10.0.0.5", none, none⟩
    (by decide) (by decide) (by decide) (by decide) (by decide) (by decide)
